import Mathlib

/-!
Shallow embedding of `src/app.py` (PetarVukovic/csv2xml), the Excel/CSV to
XML converter with a round-trip accuracy check.

Modelling conventions:
* A pandas `DataFrame` becomes `Table`: an ordered list of column names and an
  ordered list of rows, each row a list of cell values in column order.
  Cell values are modelled as strings (`str` of a string cell is the identity);
  the claims under study only concern string-valued cells.
* Python string functions operate on `List Char`; string semantics are the
  ASCII fragment (Python's `\w` is modelled as ASCII alphanumeric or
  underscore).
* `ET.tostring` / `minidom.parseString` / `toprettyxml` / `ET.parse` are
  library calls, modelled at the level of their contract:
  - the XML serializer escapes text content (`&`, `<`, `>`) and the parser
    decodes entities once, so text content survives the serialize/parse
    round trip unchanged;
  - an element whose text is the empty string is serialized as an empty
    element and parses back with `text = None`;
  - `minidom.parseString` fails exactly when the serialized string is not
    well-formed; since every tag produced here consists of `\w` characters
    only, that means some tag is empty or starts with a character that may
    not begin an XML name.
* Exceptions become `Except`.
-/

set_option autoImplicit false

namespace CsvToXml

/-- The ASCII fragment of Python's regex class `\w`: letters, digits, and the
underscore. Its complement is `\W`. -/
def isWordChar (c : Char) : Bool := c.isAlphanum || c = '_'

/-- Worker for `clean_column_name`, modelling `re.sub(r"\W+", "_", name)`
(src/app.py line 14): a maximal run of `\W` characters is replaced by a single
underscore. The boolean state records whether the scanner is inside such a
run (an underscore has already been emitted for it). -/
def cleanAux : Bool → List Char → List Char
  | _, [] => []
  | inRun, c :: cs =>
    if isWordChar c then c :: cleanAux false cs
    else if inRun then cleanAux true cs
    else '_' :: cleanAux true cs

/-- `clean_column_name` (src/app.py lines 11-15): sanitize a column name with
`re.sub(r"\W+", "_", name)`. -/
def clean_column_name (s : String) : String := ⟨cleanAux false s.data⟩

/-- Replace every occurrence of the single character `c` by the string `rep`.
This is Python's `str.replace` for a one-character needle. -/
def replaceChar (c : Char) (rep : List Char) : List Char → List Char
  | [] => []
  | d :: l => (if d = c then rep else [d]) ++ replaceChar c rep l

/-- `clean_data` (src/app.py lines 18-23) on a string value:
`value.replace("&", "&amp;").replace("<", "&lt;").replace(">", "&gt;")`,
the replacements applied in that order. -/
def cleanDataChars (l : List Char) : List Char :=
  replaceChar '>' "&gt;".data
    (replaceChar '<' "&lt;".data
      (replaceChar '&' "&amp;".data l))

/-- `clean_data` (src/app.py lines 18-23) as a string function. -/
def clean_data (s : String) : String := ⟨cleanDataChars s.data⟩

/-- The apostrophe character (codepoint 39). -/
def apos : Char := Char.ofNat 39

/-- The apostrophe as a one-character string. -/
def aposS : String := ⟨[apos]⟩

/-- Python's `html.escape` with the default `quote=True` (used at
src/app.py line 46): replace `&`, `<`, `>`, `"` and the apostrophe, in that
order, by `&amp;`, `&lt;`, `&gt;`, `&quot;`, `&#x27;`. -/
def htmlEscapeChars (l : List Char) : List Char :=
  replaceChar apos "&#x27;".data
    (replaceChar '"' "&quot;".data
      (replaceChar '>' "&gt;".data
        (replaceChar '<' "&lt;".data
          (replaceChar '&' "&amp;".data l))))

/-- `html.escape` as a string function. -/
def html_escape (s : String) : String := ⟨htmlEscapeChars s.data⟩

/-- A DataFrame: ordered column names and ordered rows of string cells. -/
structure Table where
  columns : List String
  rows : List (List String)
deriving DecidableEq, Repr

/-- Well-formed table: every row has one cell per column. -/
def Table.wf (t : Table) : Prop := ∀ r ∈ t.rows, r.length = t.columns.length

instance (t : Table) : Decidable t.wf := by
  unfold Table.wf; infer_instance

/-- A leaf XML element: one tag (sanitized column name) and its text content
as set in memory by `col_element.text = html.escape(str(row[col_name]))`. -/
structure XmlLeaf where
  tag : String
  text : String
deriving DecidableEq, Repr

/-- One `Item` element: the XML node built for one table row. -/
structure XmlItem where
  leaves : List XmlLeaf
deriving DecidableEq, Repr

/-- The `Root` element: the whole XML document tree. -/
structure XmlDoc where
  items : List XmlItem
deriving DecidableEq, Repr

/-- The effect of `df.columns = [clean_column_name(col) for col in df.columns]`
(src/app.py line 28). This assignment mutates the caller's DataFrame in
place: after `convert_df_to_pretty_xml(df)` returns, the caller's `df` has the
sanitized column names. The subsequent `df = df.applymap(clean_data)`
(line 31) rebinds a local name to a fresh DataFrame and leaves the caller's
cell values untouched, so the caller-visible post-state is exactly this. -/
def convertColumns (t : Table) : Table :=
  ⟨t.columns.map clean_column_name, t.rows⟩

/-- Build one `Item` element (src/app.py lines 39-46): for each column (in
order) a leaf whose tag is the (already sanitized) column name and whose text
is `html.escape(str(clean_data(cell)))`; `str` is the identity on strings. -/
def buildItem (cols row : List String) : XmlItem :=
  ⟨(cols.zip row).map (fun p => ⟨p.1, html_escape (clean_data p.2)⟩)⟩

/-- Build the tree rooted at `Root` (src/app.py lines 34-46), one `Item` per
row in row order. The argument is the table after the column mutation. -/
def buildDoc (t : Table) : XmlDoc := ⟨t.rows.map (buildItem t.columns)⟩

/-- `ET`'s escaping of text content when serializing (`_escape_cdata`):
`&`, `<`, `>` are replaced, `&` first. -/
def et_escape_cdata (s : String) : String := ⟨cleanDataChars s.data⟩

/-- Serialize one leaf as `ET.tostring` does: an element with empty text is
written as an empty tag, otherwise the text content is escaped. -/
def leafString (l : XmlLeaf) : String :=
  if l.text = "" then "<" ++ l.tag ++ " />"
  else "<" ++ l.tag ++ ">" ++ et_escape_cdata l.text ++ "</" ++ l.tag ++ ">"

/-- Serialize one `Item` element. -/
def itemString (it : XmlItem) : String :=
  if it.leaves = [] then "<Item />"
  else "<Item>" ++ String.join (it.leaves.map leafString) ++ "</Item>"

/-- The XML declaration emitted by `ET.tostring(root, encoding="utf-8")`. -/
def xmlDecl : String :=
  "<?xml version=" ++ aposS ++ "1.0" ++ aposS ++ " encoding=" ++ aposS
    ++ "utf-8" ++ aposS ++ "?>\n"

/-- `ET.tostring(root, encoding="utf-8", method="xml")` (src/app.py line 52),
decoded to text: declaration followed by the serialized `Root` element. -/
def et_tostring (d : XmlDoc) : String :=
  xmlDecl ++
    (if d.items = [] then "<Root />"
     else "<Root>" ++ String.join (d.items.map itemString) ++ "</Root>")

/-- A character that may start an XML name (ASCII fragment). -/
def isNameStartChar (c : Char) : Bool := c.isAlpha || c = '_' || c = ':'

/-- A character that may continue an XML name (ASCII fragment). -/
def isNameChar (c : Char) : Bool :=
  c.isAlphanum || c = '_' || c = ':' || c = '-' || c = '.'

/-- Whether a string is a well-formed XML element name. -/
def is_valid_xml_tag (s : String) : Bool :=
  match s.data with
  | [] => false
  | c :: cs => isNameStartChar c && cs.all isNameChar

/-- All element tags occurring in the serialized document, in document
order. -/
def docTags (d : XmlDoc) : List String :=
  "Root" :: d.items.flatMap (fun it => "Item" :: it.leaves.map XmlLeaf.tag)

/-- Modelled from the library contract: `minidom.parseString` on the output of
`ET.tostring` succeeds iff the serialized string is well-formed, i.e. iff
every element tag is a valid XML name (tag text is never escaped by the
serializer; text content always is, so tags are the only failure source for
the trees built here). -/
def prettyOk (d : XmlDoc) : Bool := (docTags d).all is_valid_xml_tag

/-- The diagnostic surfaced when pretty-printing fails (src/app.py
lines 55-60): the underlying cause and the first 500 characters of the raw
(unformatted) XML text. -/
structure FormatError where
  cause : String
  rawSnippet : String
deriving DecidableEq, Repr

/-- `convert_df_to_pretty_xml` (src/app.py lines 26-66).
Mutates the column names (line 28), cleans a fresh copy of the values
(line 31), builds the tree (lines 34-46), serializes (line 52) and
pretty-prints (line 54). On a pretty-printing failure the function reports
the cause and the first 500 characters of the raw XML (lines 56-59) and
re-raises (line 60), returning no buffer; otherwise it returns the buffer,
here represented by the document tree it serializes
(minidom's `toprettyxml` preserves element structure and text content, an
element whose sole child is a text node being written inline). -/
def convert_df_to_pretty_xml (t : Table) : Except FormatError XmlDoc :=
  let t2 := convertColumns t
  let doc := buildDoc t2
  if prettyOk doc then .ok doc
  else .error ⟨"not well-formed (invalid token)", ⟨(et_tostring doc).data.take 500⟩⟩

/-- An entry of the per-row dicts built by the verifier: tag to text, where
the text is `None` (here `none`) for an empty element. Python dict order is
insertion order; inserting an existing key overwrites in place. -/
abbrev XmlRowDict := List (String × Option String)

/-- Python dict assignment `d[k] = v`: overwrite in place if present,
append otherwise. -/
def dictInsert : XmlRowDict → String → Option String → XmlRowDict
  | [], k, v => [(k, v)]
  | (k0, v0) :: d, k, v =>
    if k0 = k then (k0, v) :: d else (k0, v0) :: dictInsert d k v

/-- Python `d.get(k)`: the stored value, or `None` when the key is absent.
Since a stored value is itself an `Option String` (a leaf's text or `None`),
an absent key and a stored `None` both yield `none`, exactly as in
`xml_data[i].get(key)` compared against a string. -/
def dictGet : XmlRowDict → String → Option String
  | [], _ => none
  | p :: d, k => if p.1 = k then p.2 else dictGet d k

/-- First phase of XML 1.0 line-end normalization: every two-character
sequence carriage-return line-feed becomes a single line feed. -/
def stripCrLf : List Char → List Char
  | [] => []
  | [c] => [c]
  | c :: d :: rest =>
    if c = '\r' ∧ d = '\n' then '\n' :: stripCrLf rest
    else c :: stripCrLf (d :: rest)

/-- XML 1.0 line-end normalization, performed by the parser (expat, used by
both `minidom.parseString` and `ET.parse`) on all text content: `\r\n` and
any remaining lone `\r` become `\n`. The serializers (`ET.tostring` and
minidom's writer) write `\r` in text literally, so this transformation is
applied to round-tripped text and is not undone. -/
def xmlNormalizeEol (l : List Char) : List Char :=
  replaceChar '\r' ['\n'] (stripCrLf l)

/-- The text recovered by `ET.parse` for one leaf: the serializer escaped the
in-memory text and the parser decodes entities once, so the escaping cancels;
the parser additionally performs line-end normalization on the text, and an
empty element yields `child.text = None` (normalization cannot empty a
nonempty text, so the emptiness of the in-memory text decides the empty
element). -/
def parseText (s : String) : Option String :=
  if s = "" then none else some ⟨xmlNormalizeEol s.data⟩

/-- The dict built for one `Item` (src/app.py lines 83-85):
`xml_row[child.tag] = child.text` over the children in document order. -/
def itemDict (it : XmlItem) : XmlRowDict :=
  it.leaves.foldl (fun d l => dictInsert d l.tag (parseText l.text)) []

/-- `xml_data` (src/app.py lines 81-86): one dict per `Item`, in document
order. -/
def parse_xml_items (doc : XmlDoc) : List XmlRowDict :=
  doc.items.map itemDict

/-- `str(row[key])`: pandas label lookup of `key` in a row whose labels are
`cols` — the cell at the first position of `key` in `cols`. With unique
labels this is the cell at the position of `key`. (Missing-label accesses
raise in pandas; every theorem below uses this only with `key ∈ cols` and
well-formed rows.) -/
def rowStr : List String → List String → String → String
  | [], _, _ => ""
  | c :: cs, row, key =>
    if c = key then row.getD 0 "" else rowStr cs row.tail key

/-- Python's `str` of an `Optional[str]` as interpolated in the f-string:
`None` prints as `None`. -/
def optionStr : Option String → String
  | none => "None"
  | some s => s

/-- The mismatch message of src/app.py lines 92-95:
`f"Mismatch found in record {i+1} for column '{key}': '{row[key]}' != '{xml_data[i].get(key)}'"`. -/
def mismatchMsg (i : Nat) (key orig : String) (recov : Option String) : String :=
  "Mismatch found in record " ++ toString (i + 1) ++ " for column " ++ aposS
    ++ key ++ aposS ++ ": " ++ aposS ++ orig ++ aposS ++ " != " ++ aposS
    ++ optionStr recov ++ aposS

/-- The success message of src/app.py line 97. -/
def successMsg : String := "All data has been accurately converted!"

/-- The inner loop of the verifier (src/app.py lines 90-95): scan the columns
in order, return the first mismatch message, if any. `allCols` are the row's
labels (the full column list); `cols` is the suffix still to scan. -/
def findColMismatch (allCols row : List String) (d : XmlRowDict) (i : Nat) :
    List String → Option String
  | [] => none
  | key :: rest =>
    let orig := rowStr allCols row key
    let recov := dictGet d key
    if recov = some orig then findColMismatch allCols row d i rest
    else some (mismatchMsg i key orig recov)

/-- The outer loop of the verifier (src/app.py lines 89-95): iterate the rows
with their index `i`, look up `xml_data[i]` (an out-of-range index raises an
`IndexError`, modelled as `.error`), and return the first mismatch message. -/
def findRowMismatch (cols : List String) :
    List (List String) → List XmlRowDict → Nat → Except String (Option String)
  | [], _, _ => .ok none
  | row :: rows, dicts, i =>
    match dicts[i]? with
    | none => .error "IndexError: list index out of range"
    | some d =>
      match findColMismatch cols row d i cols with
      | some msg => .ok (some msg)
      | none => findRowMismatch cols rows dicts (i + 1)

/-- `test_conversion_accuracy` (src/app.py lines 69-97): parse the buffer,
build the per-row dicts, compare row by row and column by column, returning
`(False, message)` at the first mismatch and `(True, success)` otherwise.
The buffer argument is the document tree the buffer serializes. -/
def test_conversion_accuracy (df : Table) (doc : XmlDoc) :
    Except String (Bool × String) :=
  match findRowMismatch df.columns df.rows (parse_xml_items doc) 0 with
  | .error e => .error e
  | .ok (some msg) => .ok (false, msg)
  | .ok none => .ok (true, successMsg)

/-- The escaped text a cell value ends up with: `clean_data` (applymap,
src/app.py line 31) then `html.escape` (line 46). -/
def escCell (v : String) : String := html_escape (clean_data v)

/-- Modelled from the spec's words (§3, Sanitized Column Name): "derived from
a raw column name by replacing every maximal run of non-alphanumeric
characters with a single underscore". Identical scanner to `cleanAux`, but
the run class is "non-alphanumeric", which includes the underscore, whereas
the code's `\W` excludes it. For comparison against `clean_column_name`. -/
def sanitizeSpecAux : Bool → List Char → List Char
  | _, [] => []
  | inRun, c :: cs =>
    if c.isAlphanum then c :: sanitizeSpecAux false cs
    else if inRun then sanitizeSpecAux true cs
    else '_' :: sanitizeSpecAux true cs

/-- Modelled from the spec's words: the §3 sanitization rule as a string
function. -/
def sanitize_spec (s : String) : String := ⟨sanitizeSpecAux false s.data⟩

/-- The fold step of `itemDict`, on an already-projected `(tag, text)` pair. -/
def insPair (d : XmlRowDict) (p : String × Option String) : XmlRowDict :=
  dictInsert d p.1 p.2

/-- Modelled from the spec's words (§4.2, comparison policy): all comparison
sites `(row index, column name)` in row-major order — outer loop over rows in
order, inner loop over columns in the table's original column order. -/
def rowMajorPairs (n : Nat) (cols : List String) : List (Nat × String) :=
  (List.range n).flatMap (fun i => cols.map (fun key => (i, key)))

/-- Modelled from the spec's words: the comparison at one site fails when the
recovered value (or its absence) differs from the original value's string
form. -/
def cellBad (cols : List String) (rows : List (List String))
    (dicts : List XmlRowDict) (p : Nat × String) : Bool :=
  !(dictGet (dicts.getD p.1 []) p.2 == some (rowStr cols (rows.getD p.1 []) p.2))

/-- Modelled from the spec's words: the report for a failing site — 1-based
row number, column name used for lookup, original value's string form, and
the recovered value or its absence marker. -/
def reportOf (cols : List String) (rows : List (List String))
    (dicts : List XmlRowDict) (p : Nat × String) : String :=
  mismatchMsg p.1 p.2 (rowStr cols (rows.getD p.1 []) p.2)
    (dictGet (dicts.getD p.1 []) p.2)

/-- Modelled from the spec's words: the verifier's verdict is determined by
the first failing site in row-major order, or is overall success. -/
def verdict (cols : List String) (rows : List (List String))
    (dicts : List XmlRowDict) : Bool × String :=
  match (rowMajorPairs rows.length cols).find? (cellBad cols rows dicts) with
  | none => (true, successMsg)
  | some p => (false, reportOf cols rows dicts p)

/-- `cellBad` generalized to a starting row offset `i` into the dict list
(proof-layer helper for the loop induction). -/
def badAt (cols : List String) (rows : List (List String))
    (dicts : List XmlRowDict) (i : Nat) (p : Nat × String) : Bool :=
  !(dictGet (dicts.getD (i + p.1) []) p.2
    == some (rowStr cols (rows.getD p.1 []) p.2))

/-- `reportOf` generalized to a starting row offset `i` (proof-layer
helper). -/
def msgAt (cols : List String) (rows : List (List String))
    (dicts : List XmlRowDict) (i : Nat) (p : Nat × String) : String :=
  mismatchMsg (i + p.1) p.2 (rowStr cols (rows.getD p.1 []) p.2)
    (dictGet (dicts.getD (i + p.1) []) p.2)

/-! ### Lemmas about the string transformations -/

theorem mem_cleanAux {c : Char} : ∀ (b : Bool) (l : List Char),
    c ∈ cleanAux b l → isWordChar c = true := by
  intro b l
  induction l generalizing b with
  | nil => intro h; simp [cleanAux] at h
  | cons d l ih =>
    intro h
    simp only [cleanAux] at h
    by_cases hw : isWordChar d
    · simp [hw] at h
      rcases h with h | h
      · exact h ▸ hw
      · exact ih false h
    · simp [hw] at h
      by_cases hb : b
      · subst hb; simp at h; exact ih true h
      · simp [hb] at h
        rcases h with h | h
        · subst h; decide
        · exact ih true h

theorem cleanAux_eq_sanitizeSpecAux : ∀ (b : Bool) (l : List Char),
    '_' ∉ l → cleanAux b l = sanitizeSpecAux b l := by
  intro b l
  induction l generalizing b with
  | nil => intro _; rfl
  | cons d l ih =>
    intro h
    have hd : d ≠ '_' := fun hd => h (hd ▸ List.mem_cons_self d l)
    have hl : '_' ∉ l := fun hl => h (List.mem_cons_of_mem d hl)
    have hword : isWordChar d = d.isAlphanum := by
      simp [isWordChar, hd]
    simp only [cleanAux, sanitizeSpecAux, hword]
    by_cases ha : d.isAlphanum
    · simp [ha, ih false hl]
    · simp [ha, ih true hl]

theorem replaceChar_of_not_mem {c : Char} {rep : List Char} :
    ∀ {l : List Char}, c ∉ l → replaceChar c rep l = l := by
  intro l
  induction l with
  | nil => intro _; rfl
  | cons d l ih =>
    intro h
    have hd : d ≠ c := fun hd => h (hd ▸ List.mem_cons_self d l)
    have hl : c ∉ l := fun hl => h (List.mem_cons_of_mem d hl)
    simp [replaceChar, hd, ih hl]

theorem mem_replaceChar_of_mem {c e : Char} {rep : List Char} :
    ∀ {l : List Char}, e ∈ l → e ≠ c → e ∈ replaceChar c rep l := by
  intro l
  induction l with
  | nil => intro h; simp at h
  | cons d l ih =>
    intro h hne
    simp only [replaceChar, List.mem_append]
    rcases List.mem_cons.mp h with h | h
    · subst h
      simp [hne]
    · exact Or.inr (ih h hne)

theorem length_le_replaceChar (c : Char) (rep : List Char) (hrep : 1 ≤ rep.length) :
    ∀ (l : List Char), l.length ≤ (replaceChar c rep l).length := by
  intro l
  induction l with
  | nil => simp [replaceChar]
  | cons d l ih =>
    simp only [replaceChar, List.length_append, List.length_cons]
    by_cases hd : d = c
    · rw [if_pos hd]
      omega
    · rw [if_neg hd]
      simp only [List.length_singleton]
      omega

theorem length_lt_replaceChar (c : Char) (rep : List Char) (hrep : 2 ≤ rep.length) :
    ∀ {l : List Char}, c ∈ l → l.length < (replaceChar c rep l).length := by
  intro l
  induction l with
  | nil => intro h; simp at h
  | cons d l ih =>
    intro h
    simp only [replaceChar, List.length_append, List.length_cons]
    by_cases hd : d = c
    · have := length_le_replaceChar c rep (by omega) l
      rw [if_pos hd]
      omega
    · have hc : c ∈ l := by
        rcases List.mem_cons.mp h with h | h
        · exact absurd h.symm hd
        · exact h
      have := ih hc
      rw [if_neg hd]
      simp only [List.length_singleton]
      omega

theorem cleanDataChars_of_no_special {l : List Char}
    (h1 : '&' ∉ l) (h2 : '<' ∉ l) (h3 : '>' ∉ l) : cleanDataChars l = l := by
  unfold cleanDataChars
  rw [replaceChar_of_not_mem h1, replaceChar_of_not_mem h2, replaceChar_of_not_mem h3]

theorem htmlEscapeChars_of_no_special {l : List Char}
    (h1 : '&' ∉ l) (h2 : '<' ∉ l) (h3 : '>' ∉ l) (h4 : '"' ∉ l)
    (h5 : apos ∉ l) : htmlEscapeChars l = l := by
  unfold htmlEscapeChars
  rw [replaceChar_of_not_mem h1, replaceChar_of_not_mem h2,
    replaceChar_of_not_mem h3, replaceChar_of_not_mem h4,
    replaceChar_of_not_mem h5]

theorem escCell_of_no_special {v : String}
    (h1 : '&' ∉ v.data) (h2 : '<' ∉ v.data) (h3 : '>' ∉ v.data)
    (h4 : '"' ∉ v.data) (h5 : apos ∉ v.data) : escCell v = v := by
  unfold escCell clean_data html_escape
  rw [cleanDataChars_of_no_special h1 h2 h3]
  rw [htmlEscapeChars_of_no_special h1 h2 h3 h4 h5]

theorem length_lt_htmlEscapeChars_of_apos {l : List Char} (hl : apos ∈ l) :
    l.length < (htmlEscapeChars l).length := by
  have h1 : apos ∈ replaceChar '&' "&amp;".data l :=
    mem_replaceChar_of_mem hl (by decide)
  have h2 : apos ∈ replaceChar '<' "&lt;".data (replaceChar '&' "&amp;".data l) :=
    mem_replaceChar_of_mem h1 (by decide)
  have h3 : apos ∈ replaceChar '>' "&gt;".data
      (replaceChar '<' "&lt;".data (replaceChar '&' "&amp;".data l)) :=
    mem_replaceChar_of_mem h2 (by decide)
  have h4 : apos ∈ replaceChar '"' "&quot;".data
      (replaceChar '>' "&gt;".data
        (replaceChar '<' "&lt;".data (replaceChar '&' "&amp;".data l))) :=
    mem_replaceChar_of_mem h3 (by decide)
  have l1 := length_le_replaceChar '&' "&amp;".data (by decide) l
  have l2 := length_le_replaceChar '<' "&lt;".data (by decide)
    (replaceChar '&' "&amp;".data l)
  have l3 := length_le_replaceChar '>' "&gt;".data (by decide)
    (replaceChar '<' "&lt;".data (replaceChar '&' "&amp;".data l))
  have l4 := length_le_replaceChar '\"' "&quot;".data (by decide)
    (replaceChar '>' "&gt;".data
      (replaceChar '<' "&lt;".data (replaceChar '&' "&amp;".data l)))
  have lf := length_lt_replaceChar apos "&#x27;".data (by decide) h4
  unfold htmlEscapeChars
  omega

theorem length_le_cleanDataChars (l : List Char) :
    l.length ≤ (cleanDataChars l).length := by
  have l1 := length_le_replaceChar '&' "&amp;".data (by decide) l
  have l2 := length_le_replaceChar '<' "&lt;".data (by decide)
    (replaceChar '&' "&amp;".data l)
  have l3 := length_le_replaceChar '>' "&gt;".data (by decide)
    (replaceChar '<' "&lt;".data (replaceChar '&' "&amp;".data l))
  unfold cleanDataChars
  omega

theorem length_lt_escCell_of_apos {v : String} (h : apos ∈ v.data) :
    v.data.length < (escCell v).data.length := by
  have hcd : apos ∈ cleanDataChars v.data := by
    unfold cleanDataChars
    exact mem_replaceChar_of_mem (mem_replaceChar_of_mem
      (mem_replaceChar_of_mem h (by decide)) (by decide)) (by decide)
  have h1 := length_le_cleanDataChars v.data
  have h2 := length_lt_htmlEscapeChars_of_apos hcd
  show v.data.length < (htmlEscapeChars (cleanDataChars v.data)).length
  omega

theorem escCell_ne_of_apos {v : String} (h : apos ∈ v.data) : escCell v ≠ v := by
  intro heq
  have := length_lt_escCell_of_apos h
  rw [heq] at this
  omega

theorem mem_of_mem_replaceChar {c e : Char} {rep : List Char} :
    ∀ {l : List Char}, e ∈ replaceChar c rep l → e ∈ l ∨ e ∈ rep := by
  intro l
  induction l with
  | nil => intro h; simp [replaceChar] at h
  | cons d l ih =>
    intro h
    simp only [replaceChar, List.mem_append] at h
    rcases h with h | h
    · by_cases hd : d = c
      · rw [if_pos hd] at h
        exact Or.inr h
      · rw [if_neg hd] at h
        simp only [List.mem_singleton] at h
        exact Or.inl (h ▸ List.mem_cons_self d l)
    · rcases ih h with h2 | h2
      · exact Or.inl (List.mem_cons_of_mem d h2)
      · exact Or.inr h2

theorem not_mem_replaceChar_self {c : Char} {rep : List Char} (hc : c ∉ rep) :
    ∀ (l : List Char), c ∉ replaceChar c rep l := by
  intro l
  induction l with
  | nil => simp [replaceChar]
  | cons d l ih =>
    simp only [replaceChar, List.mem_append]
    rintro (h | h)
    · by_cases hd : d = c
      · rw [if_pos hd] at h
        exact hc h
      · rw [if_neg hd] at h
        simp only [List.mem_singleton] at h
        exact hd h.symm
    · exact ih h

theorem apos_not_mem_htmlEscapeChars (l : List Char) :
    apos ∉ htmlEscapeChars l := by
  unfold htmlEscapeChars
  exact not_mem_replaceChar_self (by decide) _

theorem mem_of_mem_stripCrLf : ∀ (l : List Char) (e : Char),
    e ∈ stripCrLf l → e ∈ l ∨ e = '\n'
  | [], e, h => by simp [stripCrLf] at h
  | [c], e, h => by
    simp only [stripCrLf] at h
    exact Or.inl h
  | c :: d :: rest, e, h => by
    simp only [stripCrLf] at h
    by_cases hcd : c = '\r' ∧ d = '\n'
    · rw [if_pos hcd] at h
      rcases List.mem_cons.mp h with he | he
      · exact Or.inr he
      · rcases mem_of_mem_stripCrLf rest e he with h2 | h2
        · exact Or.inl (List.mem_cons_of_mem c (List.mem_cons_of_mem d h2))
        · exact Or.inr h2
    · rw [if_neg hcd] at h
      rcases List.mem_cons.mp h with he | he
      · exact Or.inl (he ▸ List.mem_cons_self c (d :: rest))
      · rcases mem_of_mem_stripCrLf (d :: rest) e he with h2 | h2
        · exact Or.inl (List.mem_cons_of_mem c h2)
        · exact Or.inr h2

theorem stripCrLf_of_no_cr : ∀ (l : List Char), '\r' ∉ l → stripCrLf l = l
  | [], _ => rfl
  | [_], _ => rfl
  | c :: d :: rest, h => by
    have hc : c ≠ '\r' := fun he => h (he ▸ List.mem_cons_self c (d :: rest))
    have hcd : ¬(c = '\r' ∧ d = '\n') := fun hp => hc hp.1
    have htail : '\r' ∉ d :: rest := fun hm => h (List.mem_cons_of_mem c hm)
    simp only [stripCrLf, if_neg hcd]
    rw [stripCrLf_of_no_cr (d :: rest) htail]

theorem xmlNormalizeEol_of_no_cr {l : List Char} (h : '\r' ∉ l) :
    xmlNormalizeEol l = l := by
  unfold xmlNormalizeEol
  rw [stripCrLf_of_no_cr l h]
  apply replaceChar_of_not_mem h

/-- A cell containing none of the five escaped characters, no carriage
return, and not empty survives the escape-then-parse round trip. -/
theorem parseText_escCell_eq_self {v : String} (hne : v ≠ "")
    (h1 : '&' ∉ v.data) (h2 : '<' ∉ v.data) (h3 : '>' ∉ v.data)
    (h4 : '"' ∉ v.data) (h5 : apos ∉ v.data) (h6 : '\r' ∉ v.data) :
    parseText (escCell v) = some v := by
  rw [escCell_of_no_special h1 h2 h3 h4 h5]
  unfold parseText
  rw [if_neg hne, xmlNormalizeEol_of_no_cr h6]

/-- A cell containing an apostrophe never survives the round trip: the
recovered text is free of apostrophes (they are all encoded as entities whose
own ampersand is escaped again and decoded only once). -/
theorem parseText_escCell_ne_of_apos {v : String} (hap : apos ∈ v.data) :
    parseText (escCell v) ≠ some v := by
  unfold parseText
  by_cases he : escCell v = ""
  · simp [he]
  · rw [if_neg he]
    intro hcon
    have hdata : xmlNormalizeEol (escCell v).data = v.data :=
      congrArg String.data (Option.some.inj hcon)
    have hmem : apos ∈ xmlNormalizeEol (escCell v).data := by
      rw [hdata]
      exact hap
    unfold xmlNormalizeEol at hmem
    rcases mem_of_mem_replaceChar hmem with h | h
    · rcases mem_of_mem_stripCrLf _ _ h with h2 | h2
      · exact apos_not_mem_htmlEscapeChars _ h2
      · exact absurd h2 (by decide)
    · exact absurd h (by decide)

/-! ### Lemmas about the per-row dicts -/

theorem dictGet_insert_self (d : XmlRowDict) (k : String) (v : Option String) :
    dictGet (dictInsert d k v) k = v := by
  induction d with
  | nil => simp [dictInsert, dictGet]
  | cons p d ih =>
    by_cases hp : p.1 = k
    · simp [dictInsert, hp, dictGet]
    · simp [dictInsert, if_neg hp, dictGet, ih]

theorem dictGet_insert_of_ne {k0 k : String} (hne : k0 ≠ k) (d : XmlRowDict)
    (v : Option String) : dictGet (dictInsert d k0 v) k = dictGet d k := by
  induction d with
  | nil => simp [dictInsert, dictGet, hne]
  | cons p d ih =>
    by_cases hp : p.1 = k0
    · have hpk : p.1 ≠ k := hp ▸ hne
      simp [dictInsert, if_pos hp, dictGet, hpk, hne]
    · by_cases hq : p.1 = k
      · simp [dictInsert, if_neg hp, dictGet, hq, Ne.symm hne]
      · simp [dictInsert, if_neg hp, dictGet, hq, ih]

theorem dictGet_foldl_congr (ps : List (String × Option String)) :
    ∀ (acc1 acc2 : XmlRowDict) (k : String), dictGet acc1 k = dictGet acc2 k →
    dictGet (ps.foldl insPair acc1) k = dictGet (ps.foldl insPair acc2) k := by
  induction ps with
  | nil => intro acc1 acc2 k h; simpa using h
  | cons p ps ih =>
    intro acc1 acc2 k h
    simp only [List.foldl_cons]
    apply ih
    by_cases hp : p.1 = k
    · subst hp
      simp [insPair, dictGet_insert_self]
    · simp [insPair, dictGet_insert_of_ne hp, h]

theorem dictGet_foldl_of_not_mem (ps : List (String × Option String)) :
    ∀ (acc : XmlRowDict) (k : String), k ∉ ps.map Prod.fst →
    dictGet (ps.foldl insPair acc) k = dictGet acc k := by
  induction ps with
  | nil => intro acc k _; rfl
  | cons p ps ih =>
    intro acc k h
    simp only [List.map_cons, List.mem_cons] at h
    push_neg at h
    simp only [List.foldl_cons]
    rw [ih _ k h.2, insPair, dictGet_insert_of_ne (fun he => h.1 he.symm)]

/-- `itemDict` of a built row element, as a fold over `(tag, parsed text)`
pairs. -/
theorem itemDict_buildItem (cols row : List String) :
    itemDict (buildItem cols row) =
      ((cols.zip row).map
        (fun p => (p.1, parseText (escCell p.2)))).foldl insPair [] := by
  simp only [itemDict, buildItem, List.foldl_map, insPair, escCell]

theorem rowStr_cons_self (c : String) (cs : List String) (row : List String) :
    rowStr (c :: cs) row c = row.getD 0 "" := by
  simp [rowStr]

theorem rowStr_cons_of_ne {c key : String} (hne : c ≠ key) (cs : List String)
    (v : String) (vs : List String) :
    rowStr (c :: cs) (v :: vs) key = rowStr cs vs key := by
  simp [rowStr, hne]

theorem tail_getD (row : List String) (j : Nat) :
    row.tail.getD j "" = row.getD (j + 1) "" := by
  cases row <;> simp [List.getD]

/-- Positional reading of the pandas label lookup: with unique labels, looking
up the label at position `j` returns the cell at position `j`. -/
theorem rowStr_get (cols : List String) : ∀ (row : List String) (j : Nat)
    (key : String), cols.Nodup → cols[j]? = some key →
    rowStr cols row key = row.getD j "" := by
  induction cols with
  | nil => intro row j key _ h; simp at h
  | cons c cs ih =>
    intro row j key hnd h
    cases j with
    | zero =>
      simp only [List.getElem?_cons_zero, Option.some_inj] at h
      subst h
      simp [rowStr]
    | succ j =>
      simp only [List.getElem?_cons_succ] at h
      have hkey : key ∈ cs := List.getElem?_mem h
      have hck : c ≠ key := fun he => (List.nodup_cons.mp hnd).1 (he ▸ hkey)
      simp only [rowStr, if_neg hck]
      rw [ih row.tail j key (List.nodup_cons.mp hnd).2 h, tail_getD]

/-- The master lookup lemma: for unique column names, the dict built for a row
maps every column name to the parsed form of the escaped cell at that
column. -/
theorem itemDict_get (cols : List String) : ∀ (row : List String) (key : String),
    cols.Nodup → row.length = cols.length → key ∈ cols →
    dictGet (itemDict (buildItem cols row)) key =
      parseText (escCell (rowStr cols row key)) := by
  induction cols with
  | nil => intro row key _ _ h; simp at h
  | cons c cs ih =>
    intro row key hnd hlen hkey
    rcases row with _ | ⟨v, vs⟩
    · simp at hlen
    · have hnd' := List.nodup_cons.mp hnd
      have hlen' : vs.length = cs.length := by simpa using hlen
      rw [itemDict_buildItem]
      simp only [List.zip_cons_cons, List.map_cons, List.foldl_cons]
      have hmfst : (((cs.zip vs).map
          (fun p => (p.1, parseText (escCell p.2)))).map Prod.fst) = cs := by
        rw [List.map_map]
        have : (Prod.fst ∘ fun (p : String × String) =>
            (p.1, parseText (escCell p.2))) = Prod.fst := rfl
        rw [this, List.map_fst_zip cs vs (by omega)]
      rcases List.mem_cons.mp hkey with hk | hk
      · -- key is the head column: its binding is set first and never touched
        have hkeys : key ∉ (((cs.zip vs).map
            (fun p => (p.1, parseText (escCell p.2)))).map Prod.fst) := by
          rw [hmfst, hk]
          exact hnd'.1
        rw [dictGet_foldl_of_not_mem _ _ _ hkeys]
        rw [hk, rowStr_cons_self]
        simp [insPair, dictInsert, dictGet, List.getD]
      · -- key is in the tail: the head binding is irrelevant
        have hck : c ≠ key := fun he => hnd'.1 (he ▸ hk)
        have hacc : dictGet (insPair [] (c, parseText (escCell v))) key
            = dictGet ([] : XmlRowDict) key := by
          simp [insPair, dictInsert, dictGet, hck]
        rw [dictGet_foldl_congr _ _ _ _ hacc]
        rw [rowStr_cons_of_ne hck]
        rw [← itemDict_buildItem]
        exact ih vs key hnd'.2 hlen' hk

/-! ### The comparison policy, stated as in the spec -/

theorem rowMajorPairs_succ (n : Nat) (cols : List String) :
    rowMajorPairs (n + 1) cols = cols.map (fun key => (0, key))
      ++ (rowMajorPairs n cols).map (fun p => (p.1 + 1, p.2)) := by
  unfold rowMajorPairs
  rw [List.range_succ_eq_map, List.flatMap_cons, List.flatMap_map,
    List.map_flatMap]
  congr 1
  simp [List.map_map, Nat.succ_eq_add_one, Function.comp_def]

theorem badAt_shift (cols : List String) (row : List String)
    (rows : List (List String)) (dicts : List XmlRowDict) (i : Nat) :
    (badAt cols (row :: rows) dicts i ∘ (fun p => (p.1 + 1, p.2)))
      = badAt cols rows dicts (i + 1) := by
  funext p
  simp only [Function.comp_apply, badAt, List.getD_cons_succ]
  rw [show i + (p.1 + 1) = i + 1 + p.1 by omega]

theorem msgAt_shift (cols : List String) (row : List String)
    (rows : List (List String)) (dicts : List XmlRowDict) (i : Nat) :
    (msgAt cols (row :: rows) dicts i ∘ (fun p => (p.1 + 1, p.2)))
      = msgAt cols rows dicts (i + 1) := by
  funext p
  simp only [Function.comp_apply, msgAt, List.getD_cons_succ]
  rw [show i + (p.1 + 1) = i + 1 + p.1 by omega]

/-- The inner loop of the verifier equals a first-match search over the
columns. -/
theorem findColMismatch_eq (allCols row : List String) (d : XmlRowDict)
    (i : Nat) : ∀ (cols : List String),
    findColMismatch allCols row d i cols =
      (cols.find? (fun key =>
          !(dictGet d key == some (rowStr allCols row key)))).map
        (fun key => mismatchMsg i key (rowStr allCols row key) (dictGet d key)) := by
  intro cols
  induction cols with
  | nil => rfl
  | cons key rest ih =>
    cases hb : (dictGet d key == some (rowStr allCols row key)) with
    | true =>
      have h : dictGet d key = some (rowStr allCols row key) := eq_of_beq hb
      rw [List.find?_cons_of_neg _ (by simp [hb])]
      simpa [findColMismatch, h] using ih
    | false =>
      have h : ¬ dictGet d key = some (rowStr allCols row key) := by
        intro he
        rw [he] at hb
        simp at hb
      rw [List.find?_cons_of_pos _ (by simp [hb])]
      simp [findColMismatch, h]

/-- The outer loop of the verifier equals a first-match search over the
row-major comparison sites, provided every row index is in range for the
parsed dict list (out-of-range indices raise instead). -/
theorem findRowMismatch_eq (cols : List String) :
    ∀ (rows : List (List String)) (dicts : List XmlRowDict) (i : Nat),
    (∀ k, k < rows.length → i + k < dicts.length) →
    findRowMismatch cols rows dicts i =
      .ok (((rowMajorPairs rows.length cols).find?
          (badAt cols rows dicts i)).map (msgAt cols rows dicts i)) := by
  intro rows
  induction rows with
  | nil =>
    intro dicts i _
    simp [findRowMismatch, rowMajorPairs]
  | cons row rest ih =>
    intro dicts i h
    have hi : i < dicts.length := by
      have := h 0 (by simp)
      omega
    have hgd : dicts[i]? = some (dicts.getD i []) := by
      rw [List.getElem?_eq_getElem hi]
      rw [List.getD_eq_getElem?_getD, List.getElem?_eq_getElem hi]
      rfl
    have hrec : (∀ k, k < rest.length → (i + 1) + k < dicts.length) := by
      intro k hk
      have := h (k + 1) (by simp; omega)
      omega
    simp only [findRowMismatch, hgd]
    rw [findColMismatch_eq]
    rw [List.length_cons, rowMajorPairs_succ, List.find?_append, List.find?_map]
    have hbad0 : (badAt cols (row :: rest) dicts i ∘ fun key => (0, key))
        = fun key => !(dictGet (dicts.getD i []) key
            == some (rowStr cols row key)) := by
      funext key
      simp [badAt]
    rw [hbad0]
    cases hfind : cols.find? (fun key =>
        !(dictGet (dicts.getD i []) key == some (rowStr cols row key))) with
    | some key =>
      simp [msgAt]
    | none =>
      simp only [Option.map_none', Option.none_or]
      rw [List.find?_map, badAt_shift, Option.map_map, msgAt_shift]
      exact ih dicts (i + 1) hrec

/-- The verifier, whenever every row index is in range for the parsed dicts,
returns exactly the spec-side verdict: the first failing site in row-major
order, or overall success. -/
theorem test_eq_verdict (df : Table) (doc : XmlDoc)
    (h : df.rows.length ≤ (parse_xml_items doc).length) :
    test_conversion_accuracy df doc
      = .ok (verdict df.columns df.rows (parse_xml_items doc)) := by
  unfold test_conversion_accuracy verdict
  have hlen : ∀ k, k < df.rows.length → 0 + k < (parse_xml_items doc).length := by
    intro k hk
    omega
  rw [findRowMismatch_eq df.columns df.rows (parse_xml_items doc) 0 hlen]
  have hbad : badAt df.columns df.rows (parse_xml_items doc) 0
      = cellBad df.columns df.rows (parse_xml_items doc) := by
    funext p
    simp [badAt, cellBad]
  rw [hbad]
  cases hf : (rowMajorPairs df.rows.length df.columns).find?
      (cellBad df.columns df.rows (parse_xml_items doc)) with
  | none => simp
  | some p => simp [msgAt, reportOf]

theorem mem_rowMajorPairs {n : Nat} {cols : List String} {p : Nat × String} :
    p ∈ rowMajorPairs n cols ↔ p.1 < n ∧ p.2 ∈ cols := by
  simp only [rowMajorPairs, List.mem_flatMap, List.mem_range, List.mem_map]
  constructor
  · rintro ⟨i, hi, key, hkey, heq⟩
    rw [← heq]
    exact ⟨hi, hkey⟩
  · rintro ⟨h1, h2⟩
    exact ⟨p.1, h1, p.2, h2, rfl⟩

/-! ### The serializer-then-verifier pipeline -/

theorem parse_buildDoc_length (t2 : Table) :
    (parse_xml_items (buildDoc t2)).length = t2.rows.length := by
  simp [parse_xml_items, buildDoc]

theorem getD_mem_of_lt {α : Type} (l : List α) (dflt : α) (i : Nat)
    (h : i < l.length) : l.getD i dflt ∈ l := by
  rw [List.getD_eq_getElem?_getD, List.getElem?_eq_getElem h]
  simp [List.getElem_mem]

theorem getD_of_getElem? {α : Type} {l : List α} {i : Nat} {a : α} (dflt : α)
    (h : l[i]? = some a) : l.getD i dflt = a := by
  rw [List.getD_eq_getElem?_getD, h]
  rfl

theorem parse_buildDoc_getD (t2 : Table) (i : Nat) (hi : i < t2.rows.length) :
    (parse_xml_items (buildDoc t2)).getD i []
      = itemDict (buildItem t2.columns (t2.rows.getD i [])) := by
  have h1 : parse_xml_items (buildDoc t2)
      = t2.rows.map (fun r => itemDict (buildItem t2.columns r)) := by
    simp only [parse_xml_items, buildDoc, List.map_map]
    rfl
  rw [h1, List.getD_eq_getElem?_getD, List.getElem?_map,
    List.getElem?_eq_getElem hi, List.getD_eq_getElem?_getD,
    List.getElem?_eq_getElem hi]
  rfl

/-- At every site of the pipeline on a well-formed table with unique
sanitized column names, the comparison reduces to whether the escaped cell
value survives parsing as the original value. -/
theorem cellBad_pipeline (t : Table) (hwf : t.wf)
    (hnd : (t.columns.map clean_column_name).Nodup)
    (p : Nat × String) (hp1 : p.1 < t.rows.length)
    (hp2 : p.2 ∈ t.columns.map clean_column_name) :
    cellBad (t.columns.map clean_column_name) t.rows
        (parse_xml_items (buildDoc ⟨t.columns.map clean_column_name, t.rows⟩)) p
      = !(parseText (escCell (rowStr (t.columns.map clean_column_name)
            (t.rows.getD p.1 []) p.2))
          == some (rowStr (t.columns.map clean_column_name)
            (t.rows.getD p.1 []) p.2)) := by
  unfold cellBad
  have hparse := parse_buildDoc_getD ⟨t.columns.map clean_column_name, t.rows⟩
    p.1 hp1
  rw [hparse]
  have hrmem : t.rows.getD p.1 [] ∈ t.rows := getD_mem_of_lt _ _ _ hp1
  have hlen : (t.rows.getD p.1 []).length
      = (t.columns.map clean_column_name).length := by
    rw [List.length_map]
    exact hwf _ hrmem
  rw [itemDict_get _ _ _ hnd hlen hp2]

/-- The value looked up at a site is a cell of the corresponding row. -/
theorem rowStr_mem_row (t : Table) (hwf : t.wf)
    (hnd : (t.columns.map clean_column_name).Nodup)
    {i : Nat} {key : String} (hi : i < t.rows.length)
    (hkey : key ∈ t.columns.map clean_column_name) :
    rowStr (t.columns.map clean_column_name) (t.rows.getD i []) key
      ∈ t.rows.getD i [] := by
  obtain ⟨j, hjlen, hj⟩ := List.getElem_of_mem hkey
  have hj? : (t.columns.map clean_column_name)[j]? = some key := by
    rw [List.getElem?_eq_getElem hjlen, hj]
  rw [rowStr_get _ _ j key hnd hj?]
  have hrmem : t.rows.getD i [] ∈ t.rows := getD_mem_of_lt _ _ _ hi
  have hrlen : j < (t.rows.getD i []).length := by
    rw [hwf _ hrmem]
    simpa using hjlen
  exact getD_mem_of_lt _ _ _ hrlen

/-- Success of the pipeline verifier when every cell value survives
escape-then-parse. -/
theorem pipeline_success (t : Table) (hwf : t.wf)
    (hnd : (t.columns.map clean_column_name).Nodup)
    (hgood : ∀ r ∈ t.rows, ∀ v ∈ r, parseText (escCell v) = some v) :
    test_conversion_accuracy (convertColumns t) (buildDoc (convertColumns t))
      = .ok (true, successMsg) := by
  rw [test_eq_verdict _ _ (by rw [parse_buildDoc_length])]
  simp only [convertColumns]
  unfold verdict
  have hnone : (rowMajorPairs t.rows.length
        (t.columns.map clean_column_name)).find?
      (cellBad (t.columns.map clean_column_name) t.rows
        (parse_xml_items (buildDoc ⟨t.columns.map clean_column_name, t.rows⟩)))
      = none := by
    rw [List.find?_eq_none]
    intro p hp
    have hmem := mem_rowMajorPairs.mp hp
    have hcb := cellBad_pipeline t hwf hnd p hmem.1 hmem.2
    intro hbad
    rw [hcb] at hbad
    have hvmem := rowStr_mem_row t hwf hnd hmem.1 hmem.2
    have hrmem : t.rows.getD p.1 [] ∈ t.rows := getD_mem_of_lt _ _ _ hmem.1
    rw [hgood _ hrmem _ hvmem] at hbad
    simp at hbad
  rw [hnone]

/-- Failure of the pipeline verifier as soon as one cell value does not
survive escape-then-parse: the result is a mismatch report, not success. -/
theorem pipeline_mismatch (t : Table) (hwf : t.wf)
    (hnd : (t.columns.map clean_column_name).Nodup)
    (i j : Nat) (r : List String) (v key : String)
    (hr : t.rows[i]? = some r) (hv : r[j]? = some v)
    (hkey : (t.columns.map clean_column_name)[j]? = some key)
    (hbadv : parseText (escCell v) ≠ some v) :
    ∃ m, test_conversion_accuracy (convertColumns t) (buildDoc (convertColumns t))
      = .ok (false, m) := by
  rw [test_eq_verdict _ _ (by rw [parse_buildDoc_length])]
  simp only [convertColumns]
  unfold verdict
  cases hf : (rowMajorPairs t.rows.length
        (t.columns.map clean_column_name)).find?
      (cellBad (t.columns.map clean_column_name) t.rows
        (parse_xml_items (buildDoc ⟨t.columns.map clean_column_name, t.rows⟩))) with
  | some p =>
    exact ⟨reportOf (t.columns.map clean_column_name) t.rows
      (parse_xml_items (buildDoc ⟨t.columns.map clean_column_name, t.rows⟩)) p, rfl⟩
  | none =>
    exfalso
    have hi : i < t.rows.length := (List.getElem?_eq_some.mp hr).1
    have hkmem : key ∈ t.columns.map clean_column_name := List.getElem?_mem hkey
    have hsite : (i, key) ∈ rowMajorPairs t.rows.length
        (t.columns.map clean_column_name) :=
      mem_rowMajorPairs.mpr ⟨hi, hkmem⟩
    have hnotbad := List.find?_eq_none.mp hf _ hsite
    apply hnotbad
    have hcb := cellBad_pipeline t hwf hnd (i, key) hi hkmem
    rw [hcb]
    have hrd : t.rows.getD i [] = r := getD_of_getElem? [] hr
    have hval : rowStr (t.columns.map clean_column_name) (t.rows.getD i []) key
        = v := by
      rw [rowStr_get _ _ j key hnd hkey, hrd]
      exact getD_of_getElem? "" hv
    rw [hval]
    simp only [Bool.not_eq_true']
    rw [beq_eq_false_iff_ne]
    exact hbadv

/-- Unpacking a successful conversion: the returned buffer serializes the
tree built from the mutated table. -/
theorem convert_ok_doc {t : Table} {doc : XmlDoc}
    (h : convert_df_to_pretty_xml t = .ok doc) :
    doc = buildDoc (convertColumns t) := by
  unfold convert_df_to_pretty_xml at h
  by_cases hp : prettyOk (buildDoc (convertColumns t))
  · rw [if_pos hp] at h
    injection h with h2
    exact h2.symm
  · rw [if_neg hp] at h
    exact absurd h (by simp)

theorem map_eq_self_iff_forall {α : Type} (f : α → α) :
    ∀ (l : List α), l.map f = l ↔ ∀ c ∈ l, f c = c := by
  intro l
  induction l with
  | nil => simp
  | cons a l ih => simp [ih]

/-! ### The claims -/

/-- C1: for every table containing a cell whose string value is exactly
`A & B` (all well-formed, with unique sanitized column names, and for which
the conversion succeeds), running the serializer and then the round-trip
verifier yields a mismatch report rather than success: the cell is escaped
twice (`clean_data` turns the ampersand into its entity, then `html.escape`
escapes the entity's own ampersand again) while parsing decodes entities only
once. -/
theorem C1_ampersand_cell_mismatch (t : Table) (doc : XmlDoc)
    (hwf : t.wf) (hnd : (t.columns.map clean_column_name).Nodup)
    (hconv : convert_df_to_pretty_xml t = .ok doc)
    (hcell : ∃ r ∈ t.rows, "A & B" ∈ r) :
    ∃ m, test_conversion_accuracy (convertColumns t) doc = .ok (false, m) := by
  obtain ⟨r, hr, hv⟩ := hcell
  obtain ⟨i, hilen, hi⟩ := List.getElem_of_mem hr
  obtain ⟨j, hjlen, hj⟩ := List.getElem_of_mem hv
  obtain rfl : doc = buildDoc (convertColumns t) := convert_ok_doc hconv
  have hjc : j < (t.columns.map clean_column_name).length := by
    rw [List.length_map, ← hwf r hr]
    exact hjlen
  refine pipeline_mismatch t hwf hnd i j r "A & B"
    ((t.columns.map clean_column_name).get ⟨j, hjc⟩) ?_ ?_ ?_ ?_
  · rw [List.getElem?_eq_getElem hilen, hi]
  · rw [List.getElem?_eq_getElem hjlen, hj]
  · rw [List.getElem?_eq_getElem hjc, List.get_eq_getElem]
  · decide

theorem C1_witness :
    ∃ m, test_conversion_accuracy (convertColumns ⟨["Name"], [["A & B"]]⟩)
        (buildDoc (convertColumns ⟨["Name"], [["A & B"]]⟩)) = .ok (false, m) :=
  C1_ampersand_cell_mismatch ⟨["Name"], [["A & B"]]⟩
    (buildDoc (convertColumns ⟨["Name"], [["A & B"]]⟩))
    (by decide) (by decide) rfl (by decide)

/-- C2 counterexample: the conversion does not leave the input table
unchanged — on a table whose column name contains a space, the caller's
column names are sanitized in place by line 28 of src/app.py. -/
theorem C2_counterexample :
    convertColumns ⟨["A B"], [["x"]]⟩ ≠ ⟨["A B"], [["x"]]⟩ := by decide

/-- C2 amended: the conversion leaves the cell values of the input table
unchanged, but replaces its column names in place by their sanitized forms;
the table is left entirely unchanged exactly when every column name is
already sanitized. -/
theorem C2_convert_mutates_only_columns (t : Table) :
    (convertColumns t).rows = t.rows ∧
    (convertColumns t = t ↔ ∀ c ∈ t.columns, clean_column_name c = c) := by
  obtain ⟨cols, rows⟩ := t
  refine ⟨rfl, ?_⟩
  simp only [convertColumns, Table.mk.injEq]
  simp [map_eq_self_iff_forall]

theorem C2_witness :
    (convertColumns ⟨["ab"], [["x"]]⟩).rows = [["x"]] ∧
    convertColumns ⟨["ab"], [["x"]]⟩ = ⟨["ab"], [["x"]]⟩ :=
  ⟨(C2_convert_mutates_only_columns ⟨["ab"], [["x"]]⟩).1,
    (C2_convert_mutates_only_columns ⟨["ab"], [["x"]]⟩).2.mpr (by decide)⟩

/-- C3 counterexample: `clean_column_name` does not replace every maximal run
of non-alphanumeric characters with a single underscore — on `a_ b` the run
underscore-space yields two underscores, because the regex class `\W`
excludes the underscore. -/
theorem C3_counterexample :
    clean_column_name "a_ b" = "a__b" ∧ sanitize_spec "a_ b" = "a_b" ∧
    clean_column_name "a_ b" ≠ sanitize_spec "a_ b" := by decide

/-- C3 amended: the sanitized name always consists of alphanumeric characters
and underscores only, and on raw names containing no underscore the rule
coincides with replacing every maximal run of non-alphanumeric characters
with a single underscore; runs containing underscores may produce several
adjacent underscores. -/
theorem C3_sanitize_word_runs (s : String) :
    (∀ c ∈ (clean_column_name s).data, c.isAlphanum = true ∨ c = '_') ∧
    ('_' ∉ s.data → clean_column_name s = sanitize_spec s) := by
  constructor
  · intro c hc
    have hw := mem_cleanAux false s.data hc
    simpa [isWordChar] using hw
  · intro h
    unfold clean_column_name sanitize_spec
    rw [cleanAux_eq_sanitizeSpecAux false s.data h]

theorem C3_witness :
    ('_' ∉ "a b!c".data) ∧ clean_column_name "a b!c" = sanitize_spec "a b!c" :=
  ⟨by decide, (C3_sanitize_word_runs "a b!c").2 (by decide)⟩

/-- C4 counterexample: a table whose single cell is the empty string contains
none of the special characters, yet the round-trip verifier reports a
mismatch (the empty cell parses back as absent), so success is not reported. -/
theorem C4_counterexample :
    (∀ r ∈ (Table.mk ["Name"] [[""]]).rows, ∀ v ∈ r,
      '&' ∉ v.data ∧ '<' ∉ v.data ∧ '>' ∉ v.data ∧ '"' ∉ v.data
        ∧ apos ∉ v.data) ∧
    convert_df_to_pretty_xml ⟨["Name"], [[""]]⟩
      = .ok (buildDoc (convertColumns ⟨["Name"], [[""]]⟩)) ∧
    test_conversion_accuracy (convertColumns ⟨["Name"], [[""]]⟩)
        (buildDoc (convertColumns ⟨["Name"], [[""]]⟩))
      = .ok (false, mismatchMsg 0 "Name" "" none) :=
  ⟨by decide, rfl, rfl⟩

/-- C4 amended: for every well-formed table with unique sanitized column
names whose conversion succeeds, if no cell contains any of the five special
characters, no cell contains a carriage return (the XML parser normalizes
line ends, turning a literal CR into LF), and no cell is the empty string,
then the round-trip verifier reports success. -/
theorem C4_no_specials_success (t : Table) (doc : XmlDoc)
    (hwf : t.wf) (hnd : (t.columns.map clean_column_name).Nodup)
    (hconv : convert_df_to_pretty_xml t = .ok doc)
    (hcells : ∀ r ∈ t.rows, ∀ v ∈ r, v ≠ "" ∧ '&' ∉ v.data ∧ '<' ∉ v.data
      ∧ '>' ∉ v.data ∧ '"' ∉ v.data ∧ apos ∉ v.data ∧ '\r' ∉ v.data) :
    test_conversion_accuracy (convertColumns t) doc = .ok (true, successMsg) := by
  obtain rfl : doc = buildDoc (convertColumns t) := convert_ok_doc hconv
  apply pipeline_success t hwf hnd
  intro r hr v hv
  obtain ⟨hne, h1, h2, h3, h4, h5, h6⟩ := hcells r hr v hv
  exact parseText_escCell_eq_self hne h1 h2 h3 h4 h5 h6

theorem C4_witness :
    test_conversion_accuracy (convertColumns ⟨["First Name"], [["Ana"], ["Bob"]]⟩)
        (buildDoc (convertColumns ⟨["First Name"], [["Ana"], ["Bob"]]⟩))
      = .ok (true, successMsg) :=
  C4_no_specials_success ⟨["First Name"], [["Ana"], ["Bob"]]⟩
    (buildDoc (convertColumns ⟨["First Name"], [["Ana"], ["Bob"]]⟩))
    (by decide) (by decide) rfl (by decide)

/-- C5: for every well-formed table with N rows and M columns, the document
produced by the serializer has exactly N row nodes in the table's row order,
and the i-th row node has exactly M leaves, one per sanitized column name, in
column order, carrying the escaped cells of the i-th row. -/
theorem C5_tree_shape (t : Table) (hwf : t.wf) :
    (buildDoc (convertColumns t)).items.length = t.rows.length ∧
    ∀ (i : Nat) (r : List String), t.rows[i]? = some r →
      ∃ it : XmlItem, (buildDoc (convertColumns t)).items[i]? = some it ∧
        it.leaves.length = t.columns.length ∧
        it.leaves.map XmlLeaf.tag = t.columns.map clean_column_name ∧
        it.leaves.map XmlLeaf.text = r.map escCell := by
  constructor
  · simp [buildDoc, convertColumns]
  · intro i r hr
    have hlen : r.length = t.columns.length := hwf r (List.getElem?_mem hr)
    have hlen2 : (t.columns.map clean_column_name).length = r.length := by
      rw [List.length_map, hlen]
    refine ⟨buildItem (t.columns.map clean_column_name) r, ?_, ?_, ?_, ?_⟩
    · simp [buildDoc, convertColumns, List.getElem?_map, hr]
    · simp only [buildItem, List.length_map, List.length_zip]
      omega
    · simp only [buildItem, List.map_map]
      have hfst : (XmlLeaf.tag ∘ fun p : String × String =>
          XmlLeaf.mk p.1 (html_escape (clean_data p.2))) = Prod.fst := rfl
      rw [hfst, List.map_fst_zip _ _ (by omega)]
    · simp only [buildItem, List.map_map]
      have hsnd : ((t.columns.map clean_column_name).zip r).map Prod.snd = r :=
        List.map_snd_zip _ _ (by omega)
      conv_rhs => rw [← hsnd]
      rw [List.map_map]
      rfl

theorem C5_witness :
    (buildDoc (convertColumns ⟨["A B", "c"], [["x", "y"]]⟩)).items.length
      = (Table.mk ["A B", "c"] [["x", "y"]]).rows.length :=
  (C5_tree_shape ⟨["A B", "c"], [["x", "y"]]⟩ (by decide)).1

/-- C6 counterexample: on the table with the single cell `O'Brien`
(apostrophe only, no ampersand or angle brackets) the conversion succeeds and
the round-trip verifier reports a mismatch, not success: the recovered value
is `O&#x27;Brien`, because `html.escape`'s apostrophe entity is itself
escaped by the XML serializer and decoded only once. -/
theorem C6_counterexample :
    convert_df_to_pretty_xml ⟨["Name"], [["O" ++ aposS ++ "Brien"]]⟩
      = .ok (buildDoc (convertColumns ⟨["Name"], [["O" ++ aposS ++ "Brien"]]⟩)) ∧
    test_conversion_accuracy
        (convertColumns ⟨["Name"], [["O" ++ aposS ++ "Brien"]]⟩)
        (buildDoc (convertColumns ⟨["Name"], [["O" ++ aposS ++ "Brien"]]⟩))
      = .ok (false, mismatchMsg 0 "Name" ("O" ++ aposS ++ "Brien")
          (some "O&#x27;Brien")) :=
  ⟨rfl, rfl⟩

/-- C6 amended: for every well-formed table with unique sanitized column
names whose conversion succeeds, whose cells contain no `&`, `<`, `>`, and
which has a cell containing an apostrophe, the round-trip verifier reports a
mismatch, not success: the single `html.escape` pass encodes the apostrophe
as an entity whose own ampersand the XML serializer escapes again, while
parsing decodes entities only once, so the recovered value differs from the
original. -/
theorem C6_apostrophe_cell_mismatch (t : Table) (doc : XmlDoc)
    (hwf : t.wf) (hnd : (t.columns.map clean_column_name).Nodup)
    (hconv : convert_df_to_pretty_xml t = .ok doc)
    (_hnoamp : ∀ r ∈ t.rows, ∀ v ∈ r, '&' ∉ v.data ∧ '<' ∉ v.data ∧ '>' ∉ v.data)
    (hcell : ∃ r ∈ t.rows, ∃ v ∈ r, apos ∈ v.data) :
    ∃ m, test_conversion_accuracy (convertColumns t) doc = .ok (false, m) := by
  obtain ⟨r, hr, v, hv, hap⟩ := hcell
  obtain ⟨i, hilen, hi⟩ := List.getElem_of_mem hr
  obtain ⟨j, hjlen, hj⟩ := List.getElem_of_mem hv
  obtain rfl : doc = buildDoc (convertColumns t) := convert_ok_doc hconv
  have hjc : j < (t.columns.map clean_column_name).length := by
    rw [List.length_map, ← hwf r hr]
    exact hjlen
  have hbadv : parseText (escCell v) ≠ some v := parseText_escCell_ne_of_apos hap
  refine pipeline_mismatch t hwf hnd i j r v
    ((t.columns.map clean_column_name).get ⟨j, hjc⟩) ?_ ?_ ?_ hbadv
  · rw [List.getElem?_eq_getElem hilen, hi]
  · rw [List.getElem?_eq_getElem hjlen, hj]
  · rw [List.getElem?_eq_getElem hjc, List.get_eq_getElem]

theorem C6_witness :
    ∃ m, test_conversion_accuracy
        (convertColumns ⟨["Name"], [["O" ++ aposS ++ "Brien"]]⟩)
        (buildDoc (convertColumns ⟨["Name"], [["O" ++ aposS ++ "Brien"]]⟩))
      = .ok (false, m) :=
  C6_apostrophe_cell_mismatch ⟨["Name"], [["O" ++ aposS ++ "Brien"]]⟩
    (buildDoc (convertColumns ⟨["Name"], [["O" ++ aposS ++ "Brien"]]⟩))
    (by decide) (by decide) rfl (by decide) (by decide)

/-- C7 counterexample: the verifier does not always return a mismatch report
or a success report — on a buffer whose document has fewer row nodes than the
table has rows, the lookup `xml_data[i]` raises an `IndexError` instead. -/
theorem C7_counterexample :
    test_conversion_accuracy ⟨["A"], [["x"]]⟩ ⟨[]⟩
      = .error "IndexError: list index out of range" := rfl

/-- C7 amended: for every table and XML buffer whose parsed document has at
least as many row nodes as the table has rows, the verifier compares cells in
row-major order (rows outer, columns inner, both in table order), stops at
the first mismatching site, reports it with the 1-based row number, the
column name used for lookup, the original value's string form and the
recovered value or its absence marker; with no mismatching site it reports
overall success. -/
theorem C7_first_mismatch_policy (df : Table) (doc : XmlDoc)
    (h : df.rows.length ≤ (parse_xml_items doc).length) :
    test_conversion_accuracy df doc
      = .ok (verdict df.columns df.rows (parse_xml_items doc)) :=
  test_eq_verdict df doc h

theorem C7_witness :
    test_conversion_accuracy ⟨["A"], [["x"], ["y"]]⟩
        ⟨[⟨[⟨"A", "x"⟩]⟩, ⟨[⟨"A", "z"⟩]⟩]⟩
      = .ok (false, mismatchMsg 1 "A" "y" (some "z")) := by
  rw [C7_first_mismatch_policy ⟨["A"], [["x"], ["y"]]⟩
    ⟨[⟨[⟨"A", "x"⟩]⟩, ⟨[⟨"A", "z"⟩]⟩]⟩ (by decide)]
  rfl

/-- C8: for every table on which the pretty-printing step fails, the
conversion surfaces a diagnostic carrying the underlying cause together with
the first 500 characters of the raw (unformatted) XML text, and propagates
the failure to the caller, returning no output buffer. -/
theorem C8_format_error_diagnostic (t : Table)
    (hfail : prettyOk (buildDoc (convertColumns t)) = false) :
    convert_df_to_pretty_xml t
      = .error ⟨"not well-formed (invalid token)",
          ⟨(et_tostring (buildDoc (convertColumns t))).data.take 500⟩⟩ := by
  simp only [convert_df_to_pretty_xml]
  rw [hfail]
  rfl

theorem C8_witness :
    prettyOk (buildDoc (convertColumns ⟨["1col"], [["x"]]⟩)) = false ∧
    convert_df_to_pretty_xml ⟨["1col"], [["x"]]⟩
      = .error ⟨"not well-formed (invalid token)",
          ⟨(et_tostring (buildDoc
              (convertColumns ⟨["1col"], [["x"]]⟩))).data.take 500⟩⟩ :=
  ⟨by decide, C8_format_error_diagnostic ⟨["1col"], [["x"]]⟩ (by decide)⟩

/-- C9: for every table with zero rows and a nonzero number of columns, the
conversion succeeds with a document whose root has zero row-children, and the
round-trip verifier on that output reports success trivially. -/
theorem C9_zero_rows (t : Table) (hrows : t.rows = []) (hcols : t.columns ≠ []) :
    ∃ doc, convert_df_to_pretty_xml t = .ok doc ∧ doc.items = [] ∧
      test_conversion_accuracy (convertColumns t) doc = .ok (true, successMsg) := by
  obtain ⟨cols, rows⟩ := t
  simp only at hrows
  subst hrows
  exact ⟨⟨[]⟩, rfl, rfl, rfl⟩

theorem C9_witness :
    ∃ doc, convert_df_to_pretty_xml ⟨["A"], []⟩ = .ok doc ∧ doc.items = [] ∧
      test_conversion_accuracy (convertColumns ⟨["A"], []⟩) doc
        = .ok (true, successMsg) :=
  C9_zero_rows ⟨["A"], []⟩ rfl (by decide)

/-- C10: for every well-formed table with unique sanitized column names whose
conversion succeeds and which has an empty-string cell, the verifier recovers
that cell's value as absent (the empty leaf parses back as `None`), and the
round-trip verifier reports a mismatch for the table, never success: the
empty string's display form never equals the absence marker. -/
theorem C10_empty_cell_mismatch (t : Table) (doc : XmlDoc)
    (hwf : t.wf) (hnd : (t.columns.map clean_column_name).Nodup)
    (hconv : convert_df_to_pretty_xml t = .ok doc)
    (i j : Nat) (r : List String) (key : String)
    (hr : t.rows[i]? = some r) (hv : r[j]? = some "")
    (hkey : (t.columns.map clean_column_name)[j]? = some key) :
    dictGet ((parse_xml_items doc).getD i []) key = none ∧
    ∃ m, test_conversion_accuracy (convertColumns t) doc = .ok (false, m) := by
  obtain rfl : doc = buildDoc (convertColumns t) := convert_ok_doc hconv
  constructor
  · have hi : i < t.rows.length := (List.getElem?_eq_some.mp hr).1
    have hparse := parse_buildDoc_getD ⟨t.columns.map clean_column_name, t.rows⟩
      i hi
    rw [show buildDoc (convertColumns t)
        = buildDoc ⟨t.columns.map clean_column_name, t.rows⟩ from rfl]
    rw [hparse]
    have hlen : (t.rows.getD i []).length
        = (t.columns.map clean_column_name).length := by
      rw [List.length_map, getD_of_getElem? [] hr]
      exact hwf r (List.getElem?_mem hr)
    rw [itemDict_get _ _ _ hnd hlen (List.getElem?_mem hkey)]
    rw [rowStr_get _ _ j key hnd hkey, getD_of_getElem? [] hr,
      getD_of_getElem? "" hv]
    rfl
  · exact pipeline_mismatch t hwf hnd i j r "" key hr hv hkey (by decide)

theorem C10_witness :
    dictGet ((parse_xml_items
        (buildDoc (convertColumns ⟨["Name"], [[""]]⟩))).getD 0 []) "Name" = none ∧
    ∃ m, test_conversion_accuracy (convertColumns ⟨["Name"], [[""]]⟩)
        (buildDoc (convertColumns ⟨["Name"], [[""]]⟩)) = .ok (false, m) :=
  C10_empty_cell_mismatch ⟨["Name"], [[""]]⟩
    (buildDoc (convertColumns ⟨["Name"], [[""]]⟩))
    (by decide) (by decide) rfl 0 0 [""] "Name" rfl rfl rfl

end CsvToXml
